import Mathlib

/-!
Verification of the elliptic-curve precompile event handlers in
`crates/core/executor/src/events/precompiles/ec.rs`.

The file shallowly embeds the three handlers `create_ec_add_event`,
`create_ec_double_event` and `create_ec_decompress_event`.  The memory /
page-protection port (`SyscallContext` with `slice_unsafe`, `mr_slice`,
`mw_slice`, `postprocess`) and the curve-capability library
(`AffinePoint`, encode / decode, add, double, the three decompression
routines) are external collaborators of the repository, so they are
modelled from the spec's port and capability contracts.  Machine `u64`
values (pointers, clock, words) are represented as `Nat`; word values
are reduced modulo `2 ^ 64` exactly where the code performs a byte-level
conversion.  A ghost `trace` of port actions is threaded through the
state so that ordering claims (reads before writes, flush last) are
statable.  Fatal `assert!` / `panic!` paths are embedded as `Except`
errors paired with the state reached at the moment of the fault.
-/

/-- Modelled from the spec: the closed set of curve identities
`{Secp256k1, Secp256r1, Bls12381, …}` used for decompression dispatch;
`Bn254` and `Ed25519` are identities outside the decompression set. -/
inductive CurveType where
  | Secp256k1
  | Secp256r1
  | Bn254
  | Ed25519
  | Bls12381
deriving Repr, DecidableEq

/-- Modelled from the spec: a fatal validation failure (`assert!` or
`panic!` in the handlers) that aborts instruction processing. -/
inductive Fault where
  | misalignedPointer
  | invalidSignBit
  | unsupportedCurve
deriving Repr, DecidableEq

/-- Modelled from the spec: `MemoryReadRecord`, the audit record of one
checked word read (address, value read, clock of the access). -/
structure MemoryReadRecord where
  addr : Nat
  value : Nat
  clk : Nat
deriving Repr, DecidableEq

/-- Modelled from the spec: `MemoryWriteRecord`, the audit record of one
checked word write (address, prior value, new value, clock). -/
structure MemoryWriteRecord where
  addr : Nat
  prev_value : Nat
  value : Nat
  clk : Nat
deriving Repr, DecidableEq

/-- Modelled from the spec: `PageProtRecord`, the audit entry of one
page-protection check (address of the slice, clock, read or write). -/
structure PageProtRecord where
  addr : Nat
  clk : Nat
  is_write : Bool
deriving Repr, DecidableEq

/-- Modelled from the spec: `MemoryLocalEvent`, per-instruction local
memory-access bookkeeping drained by the flush. -/
structure MemoryLocalEvent where
  addr : Nat
  clk : Nat
deriving Repr, DecidableEq

/-- Modelled from the spec: `PageProtLocalEvent`, per-instruction local
page-protection bookkeeping drained by the flush. -/
structure PageProtLocalEvent where
  addr : Nat
  clk : Nat
deriving Repr, DecidableEq

/-- Ghost instrumentation: one action issued through the memory port.
`peek` is the uninstrumented `slice_unsafe` read, `read` the checked
`mr_slice`, `write` the checked `mw_slice`, `flush` the `postprocess`
drain.  The trace exists only to state ordering properties. -/
inductive PortAction where
  | peek (addr : Nat) (n : Nat)
  | read (addr : Nat) (n : Nat)
  | write (addr : Nat) (ws : List Nat)
  | flush
deriving Repr, DecidableEq

/-- Whether a trace action is the local-access flush. -/
def PortAction.isFlush : PortAction → Bool
  | PortAction.flush => true
  | _ => false

/-- Whether a trace action is a checked memory write. -/
def PortAction.isWrite : PortAction → Bool
  | PortAction.write _ _ => true
  | _ => false

/-- Whether a trace action touches memory (peek, checked read or write). -/
def PortAction.isMemAccess : PortAction → Bool
  | PortAction.flush => false
  | _ => true

/-- Modelled from the spec: the executor-side state seen by a handler —
the process-wide clock, word-addressed memory (byte address of each
8-byte-aligned word mapped to its `u64` value), the per-instruction
local accumulation drained by `postprocess`, and the ghost action
trace. -/
structure SyscallContext where
  clk : Nat
  memory : Nat → Nat
  localMemAccess : List MemoryLocalEvent
  localPageProtAccess : List PageProtLocalEvent
  trace : List PortAction

/-- Read `n` consecutive 8-byte words starting at byte address `addr`. -/
def readWords (mem : Nat → Nat) (addr : Nat) : Nat → List Nat
  | 0 => []
  | n + 1 => mem addr :: readWords mem (addr + 8) n

/-- Write the words `ws` to consecutive 8-byte slots starting at `addr`. -/
def writeWords (mem : Nat → Nat) (addr : Nat) : List Nat → (Nat → Nat)
  | [] => mem
  | w :: rest => writeWords (fun a => if a = addr then w else mem a) (addr + 8) rest

/-- The read records produced by a checked slice read at clock `c`. -/
def mkReadRecords (mem : Nat → Nat) (addr : Nat) (c : Nat) : Nat → List MemoryReadRecord
  | 0 => []
  | n + 1 => { addr := addr, value := mem addr, clk := c } :: mkReadRecords mem (addr + 8) c n

/-- The write records produced by a checked slice write at clock `c`. -/
def mkWriteRecords (mem : Nat → Nat) (addr : Nat) (c : Nat) :
    List Nat → List MemoryWriteRecord
  | [] => []
  | w :: rest =>
    { addr := addr, prev_value := mem addr, value := w, clk := c } ::
      mkWriteRecords mem (addr + 8) c rest

theorem readWords_length (mem : Nat → Nat) (addr n : Nat) :
    (readWords mem addr n).length = n := by
  induction n generalizing addr with
  | zero => rfl
  | succ n ih => simp [readWords, ih]

theorem writeWords_apply_lt (ws : List Nat) (mem : Nat → Nat) (addr a : Nat) (h : a < addr) :
    writeWords mem addr ws a = mem a := by
  induction ws generalizing mem addr with
  | nil => rfl
  | cons w rest ih =>
    have h8 : a < addr + 8 := by omega
    have hne : a ≠ addr := by omega
    simp [writeWords, ih _ (addr + 8) h8, hne]

theorem readWords_writeWords (ws : List Nat) (mem : Nat → Nat) (addr : Nat) :
    readWords (writeWords mem addr ws) addr ws.length = ws := by
  induction ws generalizing mem addr with
  | nil => rfl
  | cons w rest ih =>
    have hhead : writeWords mem addr (w :: rest) addr = w := by
      rw [writeWords, writeWords_apply_lt rest _ (addr + 8) addr (by omega)]
      simp
    simp only [List.length_cons, readWords, hhead]
    rw [writeWords, ih]

theorem readWords_writeWords_of_length (ws : List Nat) (mem : Nat → Nat) (addr n : Nat)
    (h : ws.length = n) : readWords (writeWords mem addr ws) addr n = ws := by
  subst h
  exact readWords_writeWords ws mem addr

theorem mkWriteRecords_map_value (ws : List Nat) (mem : Nat → Nat) (addr c : Nat) :
    (mkWriteRecords mem addr c ws).map MemoryWriteRecord.value = ws := by
  induction ws generalizing addr with
  | nil => rfl
  | cons w rest ih => simp [mkWriteRecords, ih]

theorem mkWriteRecords_clk (ws : List Nat) (mem : Nat → Nat) (addr c : Nat) :
    ∀ r ∈ mkWriteRecords mem addr c ws, r.clk = c := by
  induction ws generalizing addr with
  | nil => intro r hr; cases hr
  | cons w rest ih =>
    intro r hr
    rcases List.mem_cons.mp hr with hr | hr
    · subst hr; rfl
    · exact ih (addr + 8) r hr

theorem mkReadRecords_clk (n : Nat) (mem : Nat → Nat) (addr c : Nat) :
    ∀ r ∈ mkReadRecords mem addr c n, r.clk = c := by
  induction n generalizing addr with
  | zero => intro r hr; cases hr
  | succ n ih =>
    intro r hr
    rcases List.mem_cons.mp hr with hr | hr
    · subst hr; rfl
    · exact ih (addr + 8) r hr

/-- Modelled from the spec: `raw_peek` / `rt.slice_unsafe` — reads `n`
words without producing access or page-protection records; only the
ghost trace notes that the port was touched. -/
def slice_unsafe (rt : SyscallContext) (addr n : Nat) : List Nat × SyscallContext :=
  (readWords rt.memory addr n,
   { rt with trace := rt.trace ++ [PortAction.peek addr n] })

/-- Modelled from the spec: `checked_read` / `rt.mr_slice` — reads `n`
words producing memory read records and a read page-protection record,
accumulating the corresponding local events. -/
def mr_slice (rt : SyscallContext) (addr n : Nat) :
    (List MemoryReadRecord × List Nat × List PageProtRecord) × SyscallContext :=
  let ws := readWords rt.memory addr n
  let recs := mkReadRecords rt.memory addr rt.clk n
  let pps : List PageProtRecord := [{ addr := addr, clk := rt.clk, is_write := false }]
  ((recs, ws, pps),
   { rt with
     localMemAccess :=
       rt.localMemAccess ++ recs.map (fun r => { addr := r.addr, clk := r.clk }),
     localPageProtAccess :=
       rt.localPageProtAccess ++ pps.map (fun r => { addr := r.addr, clk := r.clk }),
     trace := rt.trace ++ [PortAction.read addr n] })

/-- Modelled from the spec: `checked_write` / `rt.mw_slice` — writes the
words `ws` at `addr` producing memory write records and a write
page-protection record, accumulating the corresponding local events.
The `is_finalizing` flag is carried but (per the spec's open question)
has no semantics visible to this core. -/
def mw_slice (rt : SyscallContext) (addr : Nat) (ws : List Nat) (_is_finalizing : Bool) :
    (List MemoryWriteRecord × List PageProtRecord) × SyscallContext :=
  let recs := mkWriteRecords rt.memory addr rt.clk ws
  let pps : List PageProtRecord := [{ addr := addr, clk := rt.clk, is_write := true }]
  ((recs, pps),
   { rt with
     memory := writeWords rt.memory addr ws,
     localMemAccess :=
       rt.localMemAccess ++ recs.map (fun r => { addr := r.addr, clk := r.clk }),
     localPageProtAccess :=
       rt.localPageProtAccess ++ pps.map (fun r => { addr := r.addr, clk := r.clk }),
     trace := rt.trace ++ [PortAction.write addr ws] })

/-- Modelled from the spec: `flush_local` / `rt.postprocess` — drains and
resets the per-instruction local memory and page-protection events. -/
def postprocess (rt : SyscallContext) :
    (List MemoryLocalEvent × List PageProtLocalEvent) × SyscallContext :=
  ((rt.localMemAccess, rt.localPageProtAccess),
   { rt with
     localMemAccess := []
     localPageProtAccess := []
     trace := rt.trace ++ [PortAction.flush] })

/-- The 8 little-endian bytes of a 64-bit word (`u64` byte view). -/
def wordToBytesLe (w : Nat) : List Nat :=
  [w % 256, w / 2 ^ 8 % 256, w / 2 ^ 16 % 256, w / 2 ^ 24 % 256,
   w / 2 ^ 32 % 256, w / 2 ^ 40 % 256, w / 2 ^ 48 % 256, w / 2 ^ 56 % 256]

/-- Modelled from the spec: `words_to_bytes_le_vec` — each 64-bit word
becomes its 8 little-endian bytes, concatenated in word order. -/
def words_to_bytes_le_vec (ws : List Nat) : List Nat :=
  ws.flatMap wordToBytesLe

/-- The 64-bit word whose little-endian bytes are `bs` (at most 8 used). -/
def bytesToWordLe : List Nat → Nat
  | [] => 0
  | b :: rest => b % 256 + 256 * bytesToWordLe rest

/-- Modelled from the spec: `bytes_to_words_le_vec` — groups the byte
list into 8-byte chunks, each becoming one little-endian word. -/
def bytes_to_words_le_vec (bs : List Nat) : List Nat :=
  if _hbs : bs = [] then []
  else bytesToWordLe (bs.take 8) :: bytes_to_words_le_vec (bs.drop 8)
termination_by bs.length
decreasing_by
  have hpos : 0 < bs.length := List.length_pos.mpr _hbs
  simp only [List.length_drop]
  omega

/-- Rust `Vec::resize`: truncate to `n` elements or pad with `v` up to
`n` elements. -/
def listResize (l : List Nat) (n : Nat) (v : Nat) : List Nat :=
  if n ≤ l.length then l.take n else l ++ List.replicate (n - l.length) v

theorem listResize_length (l : List Nat) (n v : Nat) : (listResize l n v).length = n := by
  unfold listResize
  by_cases h : n ≤ l.length
  · simp [h]
  · simp [h]
    omega

theorem words_to_bytes_le_vec_length (ws : List Nat) :
    (words_to_bytes_le_vec ws).length = 8 * ws.length := by
  induction ws with
  | nil => rfl
  | cons w rest ih =>
    simp only [words_to_bytes_le_vec, List.flatMap_cons, List.length_append] at *
    simp [wordToBytesLe, ih]
    omega

/-- Modelled from the spec: the curve capability consumed by the
handlers — curve identity, base-field word width (`WordsCurvePoint`),
field-element byte width (`Limbs`), affine point decode / encode to
little-endian words, addition, doubling (`ec_double`), the three known
decompression routines (`secp256k1_decompress`, `secp256r1_decompress`,
`bls12381_decompress`, each taking big-endian x bytes and a sign bit),
and the little-endian byte serialization of a point's y coordinate
(`AffinePoint.y.to_bytes_le`).  The point type `P` is abstract: curve
arithmetic is an assumed-correct external building block. -/
structure EllipticCurveCap (P : Type) where
  curveType : CurveType
  numWords : Nat
  numLimbs : Nat
  fromWordsLe : List Nat → P
  toWordsLe : P → List Nat
  addPoints : P → P → P
  ec_double : P → P
  secp256k1_decompress : List Nat → Nat → P
  secp256r1_decompress : List Nat → Nat → P
  bls12381_decompress : List Nat → Nat → P
  yToBytesLe : P → List Nat

/-- The `match E::CURVE_TYPE` dispatch of `create_ec_decompress_event`:
the decompression routine for the three supported identities, `none`
for the `panic!`-ing wildcard arm. -/
def decompressDispatch {P : Type} (E : EllipticCurveCap P) : Option (List Nat → Nat → P) :=
  match E.curveType with
  | CurveType.Secp256k1 => some E.secp256k1_decompress
  | CurveType.Secp256r1 => some E.secp256r1_decompress
  | CurveType.Bls12381 => some E.bls12381_decompress
  | _ => none

/-- `EllipticCurvePageProtRecords`: the page-protection records of the
reads and of the writes of one event, in occurrence order. -/
structure EllipticCurvePageProtRecords where
  read_page_prot_records : List PageProtRecord
  write_page_prot_records : List PageProtRecord
deriving Repr, DecidableEq

/-- `EllipticCurveAddEvent`: the event emitted for an elliptic curve
addition (`p := p + q`). -/
structure EllipticCurveAddEvent where
  clk : Nat
  p_ptr : Nat
  p : List Nat
  q_ptr : Nat
  q : List Nat
  p_memory_records : List MemoryWriteRecord
  q_memory_records : List MemoryReadRecord
  local_mem_access : List MemoryLocalEvent
  page_prot_records : EllipticCurvePageProtRecords
  local_page_prot_access : List PageProtLocalEvent
deriving Repr, DecidableEq

/-- `EllipticCurveDoubleEvent`: the event emitted for an elliptic curve
doubling (`p := 2p`). -/
structure EllipticCurveDoubleEvent where
  clk : Nat
  p_ptr : Nat
  p : List Nat
  p_memory_records : List MemoryWriteRecord
  local_mem_access : List MemoryLocalEvent
  write_slice_page_prot_access : List PageProtRecord
  local_page_prot_access : List PageProtLocalEvent
deriving Repr, DecidableEq

/-- `EllipticCurveDecompressEvent`: the event emitted for an elliptic
curve point decompression. -/
structure EllipticCurveDecompressEvent where
  clk : Nat
  ptr : Nat
  sign_bit : Bool
  x_bytes : List Nat
  decompressed_y_bytes : List Nat
  x_memory_records : List MemoryReadRecord
  y_memory_records : List MemoryWriteRecord
  local_mem_access : List MemoryLocalEvent
  page_prot_records : EllipticCurvePageProtRecords
  local_page_prot_access : List PageProtLocalEvent
deriving Repr, DecidableEq

/-- Embedding of `create_ec_add_event` (ec.rs lines 113–158): validate
alignment of both pointers (fatal `assert!` on violation), raw-peek `p`,
checked-read `q`, increment the clock (p and q may alias), compute
`p + q` through the curve capability, checked-write the encoded result
to `p_ptr` (finalizing), flush local accesses once, and build the event
with the entry clock. -/
def create_ec_add_event {P : Type} (E : EllipticCurveCap P) (rt : SyscallContext)
    (arg1 arg2 : Nat) : Except Fault EllipticCurveAddEvent × SyscallContext :=
  let start_clk := rt.clk
  let p_ptr := arg1
  if p_ptr % 8 = 0 then
    let q_ptr := arg2
    if q_ptr % 8 = 0 then
      let num_words := E.numWords
      let r1 := slice_unsafe rt p_ptr num_words
      let p := r1.1
      let rt1 := r1.2
      let r2 := mr_slice rt1 q_ptr num_words
      let q_memory_records := r2.1.1
      let q := r2.1.2.1
      let read_page_prot_records := r2.1.2.2
      let rt2 := r2.2
      let rt3 := { rt2 with clk := rt2.clk + 1 }
      let p_affine := E.fromWordsLe p
      let q_affine := E.fromWordsLe q
      let result_affine := E.addPoints p_affine q_affine
      let result_words := E.toWordsLe result_affine
      let r3 := mw_slice rt3 p_ptr result_words true
      let p_memory_records := r3.1.1
      let write_page_prot_records := r3.1.2
      let rt4 := r3.2
      let r4 := postprocess rt4
      let local_mem_access := r4.1.1
      let local_page_prot_access := r4.1.2
      let rt5 := r4.2
      (Except.ok
        { clk := start_clk
          p_ptr := p_ptr
          p := p
          q_ptr := q_ptr
          q := q
          p_memory_records := p_memory_records
          q_memory_records := q_memory_records
          local_mem_access := local_mem_access
          page_prot_records :=
            { read_page_prot_records := read_page_prot_records
              write_page_prot_records := write_page_prot_records }
          local_page_prot_access := local_page_prot_access }, rt5)
    else (Except.error Fault.misalignedPointer, rt)
  else (Except.error Fault.misalignedPointer, rt)

/-- Embedding of `create_ec_double_event` (ec.rs lines 164–196):
validate alignment (fatal on violation), raw-peek `p`, compute `2p`
through the curve capability, checked-write the encoded result to
`p_ptr` (finalizing), flush local accesses once, and build the event
with the entry clock.  The clock is never changed. -/
def create_ec_double_event {P : Type} (E : EllipticCurveCap P) (rt : SyscallContext)
    (arg1 : Nat) (arg2 : Nat) : Except Fault EllipticCurveDoubleEvent × SyscallContext :=
  let _ := arg2
  let start_clk := rt.clk
  let p_ptr := arg1
  if p_ptr % 8 = 0 then
    let num_words := E.numWords
    let r1 := slice_unsafe rt p_ptr num_words
    let p := r1.1
    let rt1 := r1.2
    let p_affine := E.fromWordsLe p
    let result_affine := E.ec_double p_affine
    let result_words := E.toWordsLe result_affine
    let r2 := mw_slice rt1 p_ptr result_words true
    let p_memory_records := r2.1.1
    let write_page_prot_records := r2.1.2
    let rt2 := r2.2
    let r3 := postprocess rt2
    let local_mem_access := r3.1.1
    let local_page_prot_access := r3.1.2
    let rt3 := r3.2
    (Except.ok
      { clk := start_clk
        p_ptr := p_ptr
        p := p
        p_memory_records := p_memory_records
        local_mem_access := local_mem_access
        write_slice_page_prot_access := write_page_prot_records
        local_page_prot_access := local_page_prot_access }, rt3)
  else (Except.error Fault.misalignedPointer, rt)

/-- Embedding of `create_ec_decompress_event` (ec.rs lines 202–255):
validate alignment and the sign bit (fatal on violation), checked-read
`num_limbs / 8` words of compressed x at `slice_ptr + num_limbs`,
convert to little-endian bytes and reverse for the big-endian
decompression routines, dispatch on the curve identity (fatal `panic!`
for identities outside the known set), decompress, serialize y to
little-endian bytes resized to `num_limbs`, increment the clock (the x
read and the y write may share a page), checked-write the y words to
`slice_ptr` (non-finalizing), flush once, and build the event with the
entry clock. -/
def create_ec_decompress_event {P : Type} (E : EllipticCurveCap P) (rt : SyscallContext)
    (slice_ptr : Nat) (sign_bit : Nat) :
    Except Fault EllipticCurveDecompressEvent × SyscallContext :=
  let start_clk := rt.clk
  if slice_ptr % 8 = 0 then
    if sign_bit ≤ 1 then
      let num_limbs := E.numLimbs
      let num_words_field_element := num_limbs / 8
      let r1 := mr_slice rt (slice_ptr + num_limbs) num_words_field_element
      let x_memory_records := r1.1.1
      let x_vec := r1.1.2.1
      let read_page_prot_records := r1.1.2.2
      let rt1 := r1.2
      let x_bytes := words_to_bytes_le_vec x_vec
      let x_bytes_be := x_bytes.reverse
      match decompressDispatch E with
      | none => (Except.error Fault.unsupportedCurve, rt1)
      | some decompress_fn =>
        let computed_point := decompress_fn x_bytes_be sign_bit
        let decompressed_y_bytes := listResize (E.yToBytesLe computed_point) num_limbs 0
        let y_words := bytes_to_words_le_vec decompressed_y_bytes
        let rt2 := { rt1 with clk := rt1.clk + 1 }
        let r2 := mw_slice rt2 slice_ptr y_words false
        let y_memory_records := r2.1.1
        let write_page_prot_records := r2.1.2
        let rt3 := r2.2
        let r3 := postprocess rt3
        let local_mem_access := r3.1.1
        let local_page_prot_access := r3.1.2
        let rt4 := r3.2
        (Except.ok
          { clk := start_clk
            ptr := slice_ptr
            sign_bit := sign_bit != 0
            x_bytes := x_bytes
            decompressed_y_bytes := decompressed_y_bytes
            x_memory_records := x_memory_records
            y_memory_records := y_memory_records
            local_mem_access := local_mem_access
            page_prot_records :=
              { read_page_prot_records := read_page_prot_records
                write_page_prot_records := write_page_prot_records }
            local_page_prot_access := local_page_prot_access }, rt4)
    else (Except.error Fault.invalidSignBit, rt)
  else (Except.error Fault.misalignedPointer, rt)

/-- A small concrete curve capability over `Nat` points, used to
instantiate the handler theorems on concrete inputs. -/
def testCurve : EllipticCurveCap Nat where
  curveType := CurveType.Secp256k1
  numWords := 1
  numLimbs := 8
  fromWordsLe := fun ws => ws.headD 0
  toWordsLe := fun p => [p % 2 ^ 64]
  addPoints := fun a b => (a + b) % 2 ^ 64
  ec_double := fun a => 2 * a % 2 ^ 64
  secp256k1_decompress := fun bs sb => (bytesToWordLe bs + sb) % 2 ^ 64
  secp256r1_decompress := fun bs sb => (bytesToWordLe bs + sb + 1) % 2 ^ 64
  bls12381_decompress := fun bs sb => (bytesToWordLe bs + sb + 2) % 2 ^ 64
  yToBytesLe := fun p => [p % 256]

/-- The test capability rebadged with a curve identity outside the
decompression set. -/
def testCurveUnsupported : EllipticCurveCap Nat :=
  { testCurve with curveType := CurveType.Ed25519 }

/-- A concrete executor state: clock 0, zeroed memory, empty local
accumulation and trace. -/
def initialContext : SyscallContext where
  clk := 0
  memory := fun _ => 0
  localMemAccess := []
  localPageProtAccess := []
  trace := []

/-- C5: a pointer argument that is not a multiple of 8 makes each of the
three handlers fail fatally with the state unchanged — in particular no
memory write (and no port action at all) happens before the fault. -/
theorem misaligned_pointer_faults_before_any_write :
    (∀ (P : Type) (E : EllipticCurveCap P) (s : SyscallContext) (a1 a2 : Nat),
      a1 % 8 ≠ 0 ∨ a2 % 8 ≠ 0 →
      (create_ec_add_event E s a1 a2).1 = Except.error Fault.misalignedPointer ∧
      (create_ec_add_event E s a1 a2).2 = s) ∧
    (∀ (P : Type) (E : EllipticCurveCap P) (s : SyscallContext) (a1 a2 : Nat),
      a1 % 8 ≠ 0 →
      (create_ec_double_event E s a1 a2).1 = Except.error Fault.misalignedPointer ∧
      (create_ec_double_event E s a1 a2).2 = s) ∧
    (∀ (P : Type) (E : EllipticCurveCap P) (s : SyscallContext) (sp sb : Nat),
      sp % 8 ≠ 0 →
      (create_ec_decompress_event E s sp sb).1 = Except.error Fault.misalignedPointer ∧
      (create_ec_decompress_event E s sp sb).2 = s) := by
  refine ⟨?_, ?_, ?_⟩
  · intro P E s a1 a2 h
    by_cases h1 : a1 % 8 = 0
    · rcases h with h | h
      · exact absurd h1 h
      · constructor <;> simp [create_ec_add_event, h1, h]
    · constructor <;> simp [create_ec_add_event, h1]
  · intro P E s a1 a2 h
    constructor <;> simp [create_ec_double_event, h]
  · intro P E s sp sb h
    constructor <;> simp [create_ec_decompress_event, h]

/-- Witness for C5 at concrete misaligned inputs. -/
theorem misaligned_pointer_faults_before_any_write_witness :
    ((1 : Nat) % 8 ≠ 0 ∨ (8 : Nat) % 8 ≠ 0) ∧
    (create_ec_add_event testCurve initialContext 1 8).1 =
      Except.error Fault.misalignedPointer ∧
    (create_ec_add_event testCurve initialContext 1 8).2 = initialContext ∧
    (create_ec_double_event testCurve initialContext 4 0).1 =
      Except.error Fault.misalignedPointer ∧
    (create_ec_decompress_event testCurve initialContext 3 0).1 =
      Except.error Fault.misalignedPointer :=
  ⟨Or.inl (by decide),
   (misaligned_pointer_faults_before_any_write.1 Nat testCurve initialContext 1 8
     (Or.inl (by decide))).1,
   (misaligned_pointer_faults_before_any_write.1 Nat testCurve initialContext 1 8
     (Or.inl (by decide))).2,
   (misaligned_pointer_faults_before_any_write.2.1 Nat testCurve initialContext 4 0
     (by decide)).1,
   (misaligned_pointer_faults_before_any_write.2.2 Nat testCurve initialContext 3 0
     (by decide)).1⟩

/-- C6: a sign-bit argument strictly greater than 1 makes
`create_ec_decompress_event` fail fatally with the state unchanged — no
read and no write is issued through the memory port. -/
theorem ec_decompress_invalid_sign_bit_no_access
    {P : Type} (E : EllipticCurveCap P) (s : SyscallContext) (sp sb : Nat) (h : 1 < sb) :
    (∃ f, (create_ec_decompress_event E s sp sb).1 = Except.error f) ∧
    (create_ec_decompress_event E s sp sb).2 = s := by
  by_cases h1 : sp % 8 = 0
  · have h2 : ¬ sb ≤ 1 := by omega
    exact ⟨⟨Fault.invalidSignBit, by simp [create_ec_decompress_event, h1, h2]⟩,
      by simp [create_ec_decompress_event, h1, h2]⟩
  · exact ⟨⟨Fault.misalignedPointer, by simp [create_ec_decompress_event, h1]⟩,
      by simp [create_ec_decompress_event, h1]⟩

/-- Witness for C6 at `sign_bit = 2`. -/
theorem ec_decompress_invalid_sign_bit_no_access_witness :
    (1 : Nat) < 2 ∧
    ((∃ f, (create_ec_decompress_event testCurve initialContext 0 2).1 = Except.error f) ∧
      (create_ec_decompress_event testCurve initialContext 0 2).2 = initialContext) :=
  ⟨by decide, ec_decompress_invalid_sign_bit_no_access testCurve initialContext 0 2 (by decide)⟩

/-- C1: for aligned pointers, `create_ec_add_event` writes to `p_ptr`
exactly the little-endian word encoding of the sum of the two points
decoded from the words read at `p_ptr` and `q_ptr`, and the returned
event carries the pre-operation `p` and `q` word sequences.  `hWF` is
the capability contract that `encode_point` always yields the curve's
word width. -/
theorem ec_add_writes_encoded_sum
    {P : Type} (E : EllipticCurveCap P) (s : SyscallContext) (a1 a2 : Nat)
    (h1 : a1 % 8 = 0) (h2 : a2 % 8 = 0)
    (hWF : ∀ x, (E.toWordsLe x).length = E.numWords) :
    ∃ ev, (create_ec_add_event E s a1 a2).1 = Except.ok ev ∧
      ev.p = readWords s.memory a1 E.numWords ∧
      ev.q = readWords s.memory a2 E.numWords ∧
      ev.p_memory_records.map MemoryWriteRecord.value =
        E.toWordsLe (E.addPoints (E.fromWordsLe (readWords s.memory a1 E.numWords))
          (E.fromWordsLe (readWords s.memory a2 E.numWords))) ∧
      readWords (create_ec_add_event E s a1 a2).2.memory a1 E.numWords =
        E.toWordsLe (E.addPoints (E.fromWordsLe (readWords s.memory a1 E.numWords))
          (E.fromWordsLe (readWords s.memory a2 E.numWords))) := by
  simp only [create_ec_add_event, slice_unsafe, mr_slice, mw_slice, postprocess]
  rw [if_pos h1, if_pos h2]
  refine ⟨_, rfl, by simp, by simp, ?_, ?_⟩
  · simp [mkWriteRecords_map_value]
  · simp only
    exact readWords_writeWords_of_length _ _ _ _ (hWF _)

/-- Witness for C1: the add handler on the concrete test curve at
`p_ptr = 0`, `q_ptr = 8`. -/
theorem ec_add_writes_encoded_sum_witness :
    (0 : Nat) % 8 = 0 ∧ (8 : Nat) % 8 = 0 ∧
    (∀ x, (testCurve.toWordsLe x).length = testCurve.numWords) ∧
    (∃ ev, (create_ec_add_event testCurve initialContext 0 8).1 = Except.ok ev ∧
      ev.p = readWords initialContext.memory 0 testCurve.numWords ∧
      ev.q = readWords initialContext.memory 8 testCurve.numWords ∧
      ev.p_memory_records.map MemoryWriteRecord.value =
        testCurve.toWordsLe (testCurve.addPoints
          (testCurve.fromWordsLe (readWords initialContext.memory 0 testCurve.numWords))
          (testCurve.fromWordsLe (readWords initialContext.memory 8 testCurve.numWords))) ∧
      readWords (create_ec_add_event testCurve initialContext 0 8).2.memory 0
          testCurve.numWords =
        testCurve.toWordsLe (testCurve.addPoints
          (testCurve.fromWordsLe (readWords initialContext.memory 0 testCurve.numWords))
          (testCurve.fromWordsLe (readWords initialContext.memory 8 testCurve.numWords)))) :=
  ⟨by decide, by decide, fun x => by simp [testCurve],
   ec_add_writes_encoded_sum testCurve initialContext 0 8 (by decide) (by decide)
     (fun x => by simp [testCurve])⟩

/-- C2: for an aligned pointer, `create_ec_double_event` writes to
`p_ptr` the little-endian word encoding of the curve doubling of the
point decoded from the words read at `p_ptr`, and the event's `p` field
holds the pre-doubling words. -/
theorem ec_double_writes_encoded_double
    {P : Type} (E : EllipticCurveCap P) (s : SyscallContext) (a1 a2 : Nat)
    (h1 : a1 % 8 = 0)
    (hWF : ∀ x, (E.toWordsLe x).length = E.numWords) :
    ∃ ev, (create_ec_double_event E s a1 a2).1 = Except.ok ev ∧
      ev.p = readWords s.memory a1 E.numWords ∧
      ev.p_memory_records.map MemoryWriteRecord.value =
        E.toWordsLe (E.ec_double (E.fromWordsLe (readWords s.memory a1 E.numWords))) ∧
      readWords (create_ec_double_event E s a1 a2).2.memory a1 E.numWords =
        E.toWordsLe (E.ec_double (E.fromWordsLe (readWords s.memory a1 E.numWords))) := by
  simp only [create_ec_double_event, slice_unsafe, mw_slice, postprocess]
  rw [if_pos h1]
  refine ⟨_, rfl, by simp, ?_, ?_⟩
  · simp [mkWriteRecords_map_value]
  · simp only
    exact readWords_writeWords_of_length _ _ _ _ (hWF _)

/-- Witness for C2 on the concrete test curve at `p_ptr = 16`. -/
theorem ec_double_writes_encoded_double_witness :
    (16 : Nat) % 8 = 0 ∧
    (∀ x, (testCurve.toWordsLe x).length = testCurve.numWords) ∧
    (∃ ev, (create_ec_double_event testCurve initialContext 16 0).1 = Except.ok ev ∧
      ev.p = readWords initialContext.memory 16 testCurve.numWords ∧
      ev.p_memory_records.map MemoryWriteRecord.value =
        testCurve.toWordsLe (testCurve.ec_double
          (testCurve.fromWordsLe (readWords initialContext.memory 16 testCurve.numWords))) ∧
      readWords (create_ec_double_event testCurve initialContext 16 0).2.memory 16
          testCurve.numWords =
        testCurve.toWordsLe (testCurve.ec_double
          (testCurve.fromWordsLe (readWords initialContext.memory 16 testCurve.numWords)))) :=
  ⟨by decide, fun x => by simp [testCurve],
   ec_double_writes_encoded_double testCurve initialContext 16 0 (by decide)
     (fun x => by simp [testCurve])⟩

/-- C3: with `p_ptr = q_ptr`, the add handler still captures the
pre-addition value for `q` (read before the write-back) and writes the
encoding of `2p`, the same words the double handler writes for the same
input point and pointer.  `hdbl` is the curve law `p + p = 2p` assumed
of the external curve library. -/
theorem ec_add_self_alias_matches_double
    {P : Type} (E : EllipticCurveCap P) (s : SyscallContext) (ptr : Nat)
    (h : ptr % 8 = 0)
    (hWF : ∀ x, (E.toWordsLe x).length = E.numWords)
    (hdbl : ∀ x, E.addPoints x x = E.ec_double x) :
    ∃ ev, (create_ec_add_event E s ptr ptr).1 = Except.ok ev ∧
      ev.q = readWords s.memory ptr E.numWords ∧
      readWords (create_ec_add_event E s ptr ptr).2.memory ptr E.numWords =
        E.toWordsLe (E.ec_double (E.fromWordsLe (readWords s.memory ptr E.numWords))) ∧
      readWords (create_ec_add_event E s ptr ptr).2.memory ptr E.numWords =
        readWords (create_ec_double_event E s ptr ptr).2.memory ptr E.numWords := by
  simp only [create_ec_add_event, create_ec_double_event, slice_unsafe, mr_slice, mw_slice,
    postprocess]
  rw [if_pos h, if_pos h, if_pos h]
  refine ⟨_, rfl, by simp, ?_, ?_⟩
  · simp only
    rw [hdbl]
    exact readWords_writeWords_of_length _ _ _ _ (hWF _)
  · simp only
    rw [hdbl]

/-- Witness for C3 on the concrete test curve at `p_ptr = q_ptr = 8`. -/
theorem ec_add_self_alias_matches_double_witness :
    (8 : Nat) % 8 = 0 ∧
    (∀ x, (testCurve.toWordsLe x).length = testCurve.numWords) ∧
    (∀ x, testCurve.addPoints x x = testCurve.ec_double x) ∧
    (∃ ev, (create_ec_add_event testCurve initialContext 8 8).1 = Except.ok ev ∧
      ev.q = readWords initialContext.memory 8 testCurve.numWords ∧
      readWords (create_ec_add_event testCurve initialContext 8 8).2.memory 8
          testCurve.numWords =
        testCurve.toWordsLe (testCurve.ec_double
          (testCurve.fromWordsLe (readWords initialContext.memory 8 testCurve.numWords))) ∧
      readWords (create_ec_add_event testCurve initialContext 8 8).2.memory 8
          testCurve.numWords =
        readWords (create_ec_double_event testCurve initialContext 8 8).2.memory 8
          testCurve.numWords) :=
  ⟨by decide, fun x => by simp [testCurve], fun x => by simp [testCurve, Nat.two_mul],
   ec_add_self_alias_matches_double testCurve initialContext 8 (by decide)
     (fun x => by simp [testCurve]) (fun x => by simp [testCurve, Nat.two_mul])⟩

theorem decompressDispatch_eq_none {P : Type} (E : EllipticCurveCap P)
    (h1 : E.curveType ≠ CurveType.Secp256k1) (h2 : E.curveType ≠ CurveType.Secp256r1)
    (h3 : E.curveType ≠ CurveType.Bls12381) : decompressDispatch E = none := by
  cases hct : E.curveType with
  | Secp256k1 => exact absurd hct h1
  | Secp256r1 => exact absurd hct h2
  | Bls12381 => exact absurd hct h3
  | Bn254 => simp [decompressDispatch, hct]
  | Ed25519 => simp [decompressDispatch, hct]

/-- C4: every event returned by `create_ec_decompress_event` has
`x_bytes` and `decompressed_y_bytes` of length exactly `num_limbs`, the
curve's field-element byte width — the y bytes are resized (zero-padded)
to `num_limbs` even when the minimal encoding is shorter.  `hlimbs` is
the supported curves' property that the byte width is a whole number of
8-byte words (32, 32 and 48 for the three supported curves). -/
theorem ec_decompress_event_byte_widths
    {P : Type} (E : EllipticCurveCap P) (s : SyscallContext) (sp sb : Nat)
    (h1 : sp % 8 = 0) (h2 : sb ≤ 1)
    (hsup : E.curveType = CurveType.Secp256k1 ∨ E.curveType = CurveType.Secp256r1 ∨
      E.curveType = CurveType.Bls12381)
    (hlimbs : E.numLimbs % 8 = 0) :
    ∃ ev, (create_ec_decompress_event E s sp sb).1 = Except.ok ev ∧
      ev.x_bytes.length = E.numLimbs ∧
      ev.decompressed_y_bytes.length = E.numLimbs := by
  have hdvd : 8 ∣ E.numLimbs := Nat.dvd_of_mod_eq_zero hlimbs
  simp only [create_ec_decompress_event, mr_slice, mw_slice, postprocess]
  rw [if_pos h1, if_pos h2]
  rcases hsup with hs | hs | hs <;>
  · simp only [decompressDispatch, hs]
    refine ⟨_, rfl, ?_, ?_⟩
    · simp only [words_to_bytes_le_vec_length, readWords_length]
      exact Nat.mul_div_cancel' hdvd
    · exact listResize_length _ _ _

/-- Witness for C4 on the concrete test curve at `slice_ptr = 0`,
`sign_bit = 1`. -/
theorem ec_decompress_event_byte_widths_witness :
    (0 : Nat) % 8 = 0 ∧ (1 : Nat) ≤ 1 ∧
    (testCurve.curveType = CurveType.Secp256k1 ∨
      testCurve.curveType = CurveType.Secp256r1 ∨
      testCurve.curveType = CurveType.Bls12381) ∧
    testCurve.numLimbs % 8 = 0 ∧
    (∃ ev, (create_ec_decompress_event testCurve initialContext 0 1).1 = Except.ok ev ∧
      ev.x_bytes.length = testCurve.numLimbs ∧
      ev.decompressed_y_bytes.length = testCurve.numLimbs) :=
  ⟨by decide, by decide, Or.inl (by decide), by decide,
   ec_decompress_event_byte_widths testCurve initialContext 0 1 (by decide) (by decide)
     (Or.inl (by decide)) (by decide)⟩

/-- C7: for a curve identity outside `{Secp256k1, Secp256r1, Bls12381}`,
`create_ec_decompress_event` fails fatally: no event is returned, the
memory is unchanged and no write action was issued through the port. -/
theorem ec_decompress_unsupported_curve_no_writes
    {P : Type} (E : EllipticCurveCap P) (s : SyscallContext) (sp sb : Nat)
    (hu1 : E.curveType ≠ CurveType.Secp256k1) (hu2 : E.curveType ≠ CurveType.Secp256r1)
    (hu3 : E.curveType ≠ CurveType.Bls12381) :
    (∃ f, (create_ec_decompress_event E s sp sb).1 = Except.error f) ∧
    (create_ec_decompress_event E s sp sb).2.memory = s.memory ∧
    (create_ec_decompress_event E s sp sb).2.trace.filter PortAction.isWrite =
      s.trace.filter PortAction.isWrite := by
  have hd := decompressDispatch_eq_none E hu1 hu2 hu3
  by_cases h1 : sp % 8 = 0
  · by_cases h2 : sb ≤ 1
    · refine ⟨⟨Fault.unsupportedCurve, ?_⟩, ?_, ?_⟩ <;>
      · simp only [create_ec_decompress_event, mr_slice]
        rw [if_pos h1, if_pos h2, hd]
        try simp [PortAction.isWrite]
    · refine ⟨⟨Fault.invalidSignBit, ?_⟩, ?_, ?_⟩ <;>
        simp [create_ec_decompress_event, h1, h2]
  · refine ⟨⟨Fault.misalignedPointer, ?_⟩, ?_, ?_⟩ <;>
      simp [create_ec_decompress_event, h1]

/-- Witness for C7 on the test capability rebadged to `Ed25519`. -/
theorem ec_decompress_unsupported_curve_no_writes_witness :
    testCurveUnsupported.curveType ≠ CurveType.Secp256k1 ∧
    testCurveUnsupported.curveType ≠ CurveType.Secp256r1 ∧
    testCurveUnsupported.curveType ≠ CurveType.Bls12381 ∧
    ((∃ f, (create_ec_decompress_event testCurveUnsupported initialContext 0 0).1 =
        Except.error f) ∧
      (create_ec_decompress_event testCurveUnsupported initialContext 0 0).2.memory =
        initialContext.memory ∧
      (create_ec_decompress_event testCurveUnsupported initialContext 0 0).2.trace.filter
          PortAction.isWrite =
        initialContext.trace.filter PortAction.isWrite) :=
  ⟨by decide, by decide, by decide,
   ec_decompress_unsupported_curve_no_writes testCurveUnsupported initialContext 0 0
     (by decide) (by decide) (by decide)⟩

/-- C10: when `create_ec_decompress_event` faults on an unsupported
curve identity (with valid alignment and sign bit), the checked read of
`num_limbs / 8` words at `slice_ptr + num_limbs` has already been
performed — the read action is on the trace, its records are in the
local accumulation — while memory is untouched: the fault is atomic only
with respect to writes, not reads. -/
theorem ec_decompress_unsupported_curve_read_already_performed
    {P : Type} (E : EllipticCurveCap P) (s : SyscallContext) (sp sb : Nat)
    (h1 : sp % 8 = 0) (h2 : sb ≤ 1)
    (hu1 : E.curveType ≠ CurveType.Secp256k1) (hu2 : E.curveType ≠ CurveType.Secp256r1)
    (hu3 : E.curveType ≠ CurveType.Bls12381) :
    (create_ec_decompress_event E s sp sb).1 = Except.error Fault.unsupportedCurve ∧
    (create_ec_decompress_event E s sp sb).2.trace =
      s.trace ++ [PortAction.read (sp + E.numLimbs) (E.numLimbs / 8)] ∧
    (create_ec_decompress_event E s sp sb).2.localMemAccess =
      s.localMemAccess ++
        (mkReadRecords s.memory (sp + E.numLimbs) s.clk (E.numLimbs / 8)).map
          (fun r => { addr := r.addr, clk := r.clk }) ∧
    (create_ec_decompress_event E s sp sb).2.memory = s.memory := by
  have hd := decompressDispatch_eq_none E hu1 hu2 hu3
  refine ⟨?_, ?_, ?_, ?_⟩ <;>
  · simp only [create_ec_decompress_event, mr_slice]
    rw [if_pos h1, if_pos h2, hd]
    try simp

/-- Witness for C10 on the `Ed25519`-rebadged capability at
`slice_ptr = 8`, `sign_bit = 1`. -/
theorem ec_decompress_unsupported_curve_read_already_performed_witness :
    (8 : Nat) % 8 = 0 ∧ (1 : Nat) ≤ 1 ∧
    testCurveUnsupported.curveType ≠ CurveType.Secp256k1 ∧
    testCurveUnsupported.curveType ≠ CurveType.Secp256r1 ∧
    testCurveUnsupported.curveType ≠ CurveType.Bls12381 ∧
    ((create_ec_decompress_event testCurveUnsupported initialContext 8 1).1 =
        Except.error Fault.unsupportedCurve ∧
      (create_ec_decompress_event testCurveUnsupported initialContext 8 1).2.trace =
        initialContext.trace ++
          [PortAction.read (8 + testCurveUnsupported.numLimbs)
            (testCurveUnsupported.numLimbs / 8)] ∧
      (create_ec_decompress_event testCurveUnsupported initialContext 8 1).2.localMemAccess =
        initialContext.localMemAccess ++
          (mkReadRecords initialContext.memory (8 + testCurveUnsupported.numLimbs)
            initialContext.clk (testCurveUnsupported.numLimbs / 8)).map
            (fun r => { addr := r.addr, clk := r.clk }) ∧
      (create_ec_decompress_event testCurveUnsupported initialContext 8 1).2.memory =
        initialContext.memory) :=
  ⟨by decide, by decide, by decide, by decide, by decide,
   ec_decompress_unsupported_curve_read_already_performed testCurveUnsupported
     initialContext 8 1 (by decide) (by decide) (by decide) (by decide) (by decide)⟩

/-- C8: each handler reads the clock only at entry; on a successful run
`create_ec_add_event` and `create_ec_decompress_event` leave the clock
advanced by exactly one tick — the tick sits between the checked read
(whose records carry the entry clock) and the checked write (whose
records carry the entry clock plus one) — while
`create_ec_double_event` never changes the clock; and every returned
event's `clk` field is the entry clock, not the incremented value. -/
theorem handlers_clock_discipline :
    (∀ (P : Type) (E : EllipticCurveCap P) (s : SyscallContext) (a1 a2 : Nat),
      a1 % 8 = 0 → a2 % 8 = 0 →
      (create_ec_add_event E s a1 a2).2.clk = s.clk + 1 ∧
      ∃ ev, (create_ec_add_event E s a1 a2).1 = Except.ok ev ∧ ev.clk = s.clk ∧
        (∀ r ∈ ev.q_memory_records, r.clk = s.clk) ∧
        (∀ r ∈ ev.p_memory_records, r.clk = s.clk + 1)) ∧
    (∀ (P : Type) (E : EllipticCurveCap P) (s : SyscallContext) (a1 a2 : Nat),
      a1 % 8 = 0 →
      (create_ec_double_event E s a1 a2).2.clk = s.clk ∧
      ∃ ev, (create_ec_double_event E s a1 a2).1 = Except.ok ev ∧ ev.clk = s.clk ∧
        (∀ r ∈ ev.p_memory_records, r.clk = s.clk)) ∧
    (∀ (P : Type) (E : EllipticCurveCap P) (s : SyscallContext) (sp sb : Nat),
      sp % 8 = 0 → sb ≤ 1 →
      (E.curveType = CurveType.Secp256k1 ∨ E.curveType = CurveType.Secp256r1 ∨
        E.curveType = CurveType.Bls12381) →
      (create_ec_decompress_event E s sp sb).2.clk = s.clk + 1 ∧
      ∃ ev, (create_ec_decompress_event E s sp sb).1 = Except.ok ev ∧ ev.clk = s.clk ∧
        (∀ r ∈ ev.x_memory_records, r.clk = s.clk) ∧
        (∀ r ∈ ev.y_memory_records, r.clk = s.clk + 1)) := by
  refine ⟨?_, ?_, ?_⟩
  · intro P E s a1 a2 h1 h2
    simp only [create_ec_add_event, slice_unsafe, mr_slice, mw_slice, postprocess]
    rw [if_pos h1, if_pos h2]
    exact ⟨rfl, _, rfl, rfl, mkReadRecords_clk _ _ _ _, mkWriteRecords_clk _ _ _ _⟩
  · intro P E s a1 a2 h1
    simp only [create_ec_double_event, slice_unsafe, mw_slice, postprocess]
    rw [if_pos h1]
    exact ⟨rfl, _, rfl, rfl, mkWriteRecords_clk _ _ _ _⟩
  · intro P E s sp sb h1 h2 hsup
    simp only [create_ec_decompress_event, mr_slice, mw_slice, postprocess]
    rw [if_pos h1, if_pos h2]
    rcases hsup with hs | hs | hs <;>
    · simp only [decompressDispatch, hs]
      exact ⟨by trivial, _, rfl, by trivial, mkReadRecords_clk _ _ _ _,
        mkWriteRecords_clk _ _ _ _⟩

/-- Witness for C8: all three handlers on the concrete test curve. -/
theorem handlers_clock_discipline_witness :
    ((0 : Nat) % 8 = 0 ∧ (8 : Nat) % 8 = 0 ∧
      (create_ec_add_event testCurve initialContext 0 8).2.clk = initialContext.clk + 1 ∧
      ∃ ev, (create_ec_add_event testCurve initialContext 0 8).1 = Except.ok ev ∧
        ev.clk = initialContext.clk ∧
        (∀ r ∈ ev.q_memory_records, r.clk = initialContext.clk) ∧
        (∀ r ∈ ev.p_memory_records, r.clk = initialContext.clk + 1)) ∧
    ((create_ec_double_event testCurve initialContext 0 0).2.clk = initialContext.clk ∧
      ∃ ev, (create_ec_double_event testCurve initialContext 0 0).1 = Except.ok ev ∧
        ev.clk = initialContext.clk ∧
        (∀ r ∈ ev.p_memory_records, r.clk = initialContext.clk)) ∧
    ((create_ec_decompress_event testCurve initialContext 0 0).2.clk =
        initialContext.clk + 1 ∧
      ∃ ev, (create_ec_decompress_event testCurve initialContext 0 0).1 = Except.ok ev ∧
        ev.clk = initialContext.clk ∧
        (∀ r ∈ ev.x_memory_records, r.clk = initialContext.clk) ∧
        (∀ r ∈ ev.y_memory_records, r.clk = initialContext.clk + 1)) :=
  ⟨⟨by decide, by decide,
    handlers_clock_discipline.1 Nat testCurve initialContext 0 8 (by decide) (by decide)⟩,
   handlers_clock_discipline.2.1 Nat testCurve initialContext 0 0 (by decide),
   handlers_clock_discipline.2.2 Nat testCurve initialContext 0 0 (by decide) (by decide)
     (Or.inl (by decide))⟩

/-- C9: on every successful invocation each handler calls the
local-access flush exactly once, and the flush is the last port action
of the invocation — every read and every write of the invocation is
issued before it (the new trace segment is `l ++ [flush]` with no flush
in `l`). -/
theorem handlers_flush_once_after_accesses :
    (∀ (P : Type) (E : EllipticCurveCap P) (s : SyscallContext) (a1 a2 : Nat),
      a1 % 8 = 0 → a2 % 8 = 0 →
      ∃ l, (create_ec_add_event E s a1 a2).2.trace = s.trace ++ l ++ [PortAction.flush] ∧
        l.countP PortAction.isFlush = 0) ∧
    (∀ (P : Type) (E : EllipticCurveCap P) (s : SyscallContext) (a1 a2 : Nat),
      a1 % 8 = 0 →
      ∃ l, (create_ec_double_event E s a1 a2).2.trace = s.trace ++ l ++ [PortAction.flush] ∧
        l.countP PortAction.isFlush = 0) ∧
    (∀ (P : Type) (E : EllipticCurveCap P) (s : SyscallContext) (sp sb : Nat),
      sp % 8 = 0 → sb ≤ 1 →
      (E.curveType = CurveType.Secp256k1 ∨ E.curveType = CurveType.Secp256r1 ∨
        E.curveType = CurveType.Bls12381) →
      ∃ l, (create_ec_decompress_event E s sp sb).2.trace =
          s.trace ++ l ++ [PortAction.flush] ∧
        l.countP PortAction.isFlush = 0) := by
  refine ⟨?_, ?_, ?_⟩
  · intro P E s a1 a2 h1 h2
    simp only [create_ec_add_event, slice_unsafe, mr_slice, mw_slice, postprocess]
    rw [if_pos h1, if_pos h2]
    refine ⟨[PortAction.peek a1 E.numWords, PortAction.read a2 E.numWords,
      PortAction.write a1 (E.toWordsLe (E.addPoints
        (E.fromWordsLe (readWords s.memory a1 E.numWords))
        (E.fromWordsLe (readWords s.memory a2 E.numWords))))], ?_, ?_⟩
    · simp
    · simp [List.countP_cons, PortAction.isFlush]
  · intro P E s a1 a2 h1
    simp only [create_ec_double_event, slice_unsafe, mw_slice, postprocess]
    rw [if_pos h1]
    refine ⟨[PortAction.peek a1 E.numWords,
      PortAction.write a1 (E.toWordsLe (E.ec_double
        (E.fromWordsLe (readWords s.memory a1 E.numWords))))], ?_, ?_⟩
    · simp
    · simp [List.countP_cons, PortAction.isFlush]
  · intro P E s sp sb h1 h2 hsup
    simp only [create_ec_decompress_event, mr_slice, mw_slice, postprocess]
    rw [if_pos h1, if_pos h2]
    rcases hsup with hs | hs | hs
    · simp only [decompressDispatch, hs]
      refine ⟨[PortAction.read (sp + E.numLimbs) (E.numLimbs / 8),
        PortAction.write sp (bytes_to_words_le_vec (listResize
          (E.yToBytesLe (E.secp256k1_decompress
            (words_to_bytes_le_vec (readWords s.memory (sp + E.numLimbs)
              (E.numLimbs / 8))).reverse sb)) E.numLimbs 0))], ?_, ?_⟩
      · simp
      · simp [List.countP_cons, PortAction.isFlush]
    · simp only [decompressDispatch, hs]
      refine ⟨[PortAction.read (sp + E.numLimbs) (E.numLimbs / 8),
        PortAction.write sp (bytes_to_words_le_vec (listResize
          (E.yToBytesLe (E.secp256r1_decompress
            (words_to_bytes_le_vec (readWords s.memory (sp + E.numLimbs)
              (E.numLimbs / 8))).reverse sb)) E.numLimbs 0))], ?_, ?_⟩
      · simp
      · simp [List.countP_cons, PortAction.isFlush]
    · simp only [decompressDispatch, hs]
      refine ⟨[PortAction.read (sp + E.numLimbs) (E.numLimbs / 8),
        PortAction.write sp (bytes_to_words_le_vec (listResize
          (E.yToBytesLe (E.bls12381_decompress
            (words_to_bytes_le_vec (readWords s.memory (sp + E.numLimbs)
              (E.numLimbs / 8))).reverse sb)) E.numLimbs 0))], ?_, ?_⟩
      · simp
      · simp [List.countP_cons, PortAction.isFlush]

/-- Witness for C9: all three handlers on the concrete test curve. -/
theorem handlers_flush_once_after_accesses_witness :
    ((0 : Nat) % 8 = 0 ∧ (8 : Nat) % 8 = 0 ∧
      ∃ l, (create_ec_add_event testCurve initialContext 0 8).2.trace =
          initialContext.trace ++ l ++ [PortAction.flush] ∧
        l.countP PortAction.isFlush = 0) ∧
    (∃ l, (create_ec_double_event testCurve initialContext 0 0).2.trace =
        initialContext.trace ++ l ++ [PortAction.flush] ∧
      l.countP PortAction.isFlush = 0) ∧
    (∃ l, (create_ec_decompress_event testCurve initialContext 0 1).2.trace =
        initialContext.trace ++ l ++ [PortAction.flush] ∧
      l.countP PortAction.isFlush = 0) :=
  ⟨⟨by decide, by decide,
    handlers_flush_once_after_accesses.1 Nat testCurve initialContext 0 8
      (by decide) (by decide)⟩,
   handlers_flush_once_after_accesses.2.1 Nat testCurve initialContext 0 0 (by decide),
   handlers_flush_once_after_accesses.2.2 Nat testCurve initialContext 0 1
     (by decide) (by decide) (Or.inl (by decide))⟩
